import Mathlib

/-!
# Zust state engine — formal model

Shallow embedding of the Zust standalone store engine
(`src/engine/pathUtils.ts`, `src/engine/createStore.ts`,
`src/engine/computedEngine.ts`, `src/engine/historyManager.ts`,
`src/engine/index.ts`).

Modelling conventions:

* JavaScript values are modelled by `JsValue`.  Objects and arrays carry a
  numeric identity (`id`): `Object.is` on composites is reference equality,
  and the identity field models the reference.  Fresh identities are drawn
  from an explicit allocator counter threaded through the functions that
  create objects (clones, intermediate containers).
* Objects are plain string-keyed records; prototype chains and inherited
  properties are not modelled (the engine's path guard rejects
  `__proto__`/`constructor`/`prototype` segments, and store states are
  JSON-like trees).
* Numbers are modelled by `Int` (the claims under study involve no
  fractional or NaN arithmetic).
* Exceptions are modelled by `Except String`; the string is the thrown
  message.
* The module-level `pathCache` of `pathUtils.ts` is modelled explicitly as
  a value (`PathCache`) where it matters: `setNestedValue` and
  `deleteNestedValue` destructively `.pop()` the array stored in the cache,
  which is observable across calls.  The `...Pure` value-level functions
  model a single call on a fresh parse (first parse of a path string).
-/

set_option autoImplicit false

namespace Zust

/-- JavaScript values.  `obj`/`arr` carry an identity used by `Object.is`. -/
inductive JsValue where
  | undefined : JsValue
  | null : JsValue
  | bool (b : Bool) : JsValue
  | num (n : Int) : JsValue
  | str (s : String) : JsValue
  | obj (id : Nat) (fields : List (String × JsValue)) : JsValue
  | arr (id : Nat) (elems : List JsValue) : JsValue

/-- `Object.is`: value comparison on primitives, reference (identity)
comparison on objects and arrays. -/
def objectIs : JsValue → JsValue → Bool
  | .undefined, .undefined => true
  | .null, .null => true
  | .bool a, .bool b => a == b
  | .num a, .num b => a == b
  | .str a, .str b => a == b
  | .obj i _, .obj j _ => i == j
  | .arr i _, .arr j _ => i == j
  | _, _ => false

/-- `null` or `undefined`. -/
def isNullish : JsValue → Bool
  | .undefined => true
  | .null => true
  | _ => false

/-- `=== undefined`. -/
def isUndefined : JsValue → Bool
  | .undefined => true
  | _ => false

/-- Primitive (non-object, non-array) value. -/
def isPrimitive : JsValue → Bool
  | .obj _ _ => false
  | .arr _ _ => false
  | _ => true

/-- Property read `fields[key]`: `undefined` when the key is absent. -/
def lookupField (fields : List (String × JsValue)) (key : String) : JsValue :=
  match fields.find? (fun kv => kv.1 == key) with
  | some kv => kv.2
  | none => .undefined

/-- `key in fields` (own properties; prototypes are not modelled). -/
def hasField (fields : List (String × JsValue)) (key : String) : Bool :=
  fields.any (fun kv => kv.1 == key)

/-- Property write `fields[key] = v`: overwrite in place or append. -/
def setField : List (String × JsValue) → String → JsValue → List (String × JsValue)
  | [], key, v => [(key, v)]
  | kv :: rest, key, v =>
      if kv.1 == key then (key, v) :: rest else kv :: setField rest key v

/-- `delete fields[key]` (removes the key when present). -/
def removeField : List (String × JsValue) → String → List (String × JsValue)
  | [], _ => []
  | kv :: rest, key => if kv.1 == key then rest else kv :: removeField rest key

/-- Longest digit prefix of a character list. -/
def takeDigits : List Char → List Char
  | [] => []
  | c :: cs => if c.isDigit then c :: takeDigits cs else []

/-- Digits to natural number, most significant first. -/
def digitsToNat (ds : List Char) : Nat :=
  ds.foldl (fun acc c => acc * 10 + (c.toNat - 48)) 0

/-- Model of JavaScript `parseInt(s, 10)`: skip leading whitespace, optional
sign, then the longest digit prefix; `none` models `NaN`. -/
def parseIntJs (s : String) : Option Int :=
  let cs := s.data.dropWhile (fun c => c == ' ' || c == '\t' || c == '\n' || c == '\r')
  let signed : Int × List Char :=
    match cs with
    | '-' :: rest => (-1, rest)
    | '+' :: rest => (1, rest)
    | _ => (1, cs)
  let ds := takeDigits signed.2
  if ds.isEmpty then none else some (signed.1 * (digitsToNat ds : Int))

/-- `String.split(".")` — JavaScript semantics (`"" → [""]`,
`"a..b" → ["a","","b"]`). -/
def splitDotChars : List Char → List (List Char)
  | [] => [[]]
  | c :: rest =>
      if c = '.' then [] :: splitDotChars rest
      else
        match splitDotChars rest with
        | [] => [[c]]
        | g :: gs => (c :: g) :: gs

/-- `path.split(".")` on strings. -/
def splitDot (s : String) : List String :=
  (splitDotChars s.data).map (fun cs => ⟨cs⟩)

/-- `DANGEROUS_PROPS` — forbidden segments guarding prototype pollution. -/
def DANGEROUS_PROPS : List String := ["__proto__", "constructor", "prototype"]

/-- `validatePathSegment`: rejects empty and dangerous segments. -/
def validatePathSegment (segment : String) : Except String Unit :=
  if segment = "" then
    .error "[Zust] Invalid path segment: must be a non-empty string"
  else if DANGEROUS_PROPS.contains segment then
    .error ("[Zust] Forbidden path segment: \"" ++ segment ++ "\"")
  else .ok ()

/-- `parts.forEach(validatePathSegment)`. -/
def validateSegments : List String → Except String Unit
  | [] => .ok ()
  | s :: rest =>
      match validatePathSegment s with
      | .error e => .error e
      | .ok _ => validateSegments rest

/-- `parsePath` on a fresh parse (cache miss); the module-level cache is
modelled separately by `PathCache` below. -/
def parsePath (path : String) : Except String (List String) :=
  if path = "" then .error "[Zust] Path must be a non-empty string"
  else
    let parts := splitDot path
    match validateSegments parts with
    | .error e => .error e
    | .ok _ => .ok parts

/-- Traversal loop of `getNestedValue` over parsed segments.  For a `null`
or `undefined` current value the function returns `undefined`; for an array
the segment goes through `parseInt` (`NaN` throws, negative or out-of-range
indices yield `undefined`); for an object the segment is read as a
property; any other (primitive) current value yields `undefined`. -/
def getNestedLoop : JsValue → List String → Except String JsValue
  | current, [] => .ok current
  | .null, _ :: _ => .ok .undefined
  | .undefined, _ :: _ => .ok .undefined
  | .arr _ elems, part :: rest =>
      match parseIntJs part with
      | none =>
          .error ("[Zust] Invalid array index \"" ++ part ++ "\". Expected a number.")
      | some index =>
          if index < 0 ∨ (elems.length : Int) ≤ index then .ok .undefined
          else getNestedLoop (elems.getD index.toNat .undefined) rest
  | .obj _ fields, part :: rest => getNestedLoop (lookupField fields part) rest
  | _, _ :: _ => .ok .undefined

/-- `getNestedValue(obj, path)` on a fresh parse of `path`.  (The thrown
message in the source interpolates the whole path; the model's message keeps
only the offending segment, which does not affect any claim.) -/
def getNestedValue (obj : JsValue) (path : String) : Except String JsValue :=
  if path = "" then .ok obj
  else
    match parsePath path with
    | .error e => .error e
    | .ok parts => getNestedLoop obj parts

/-- `while (current.length <= index) current.push(undefined)`. -/
def padTo (elems : List JsValue) (index : Nat) : List JsValue :=
  elems ++ List.replicate (index + 1 - elems.length) .undefined

/-- Container created for a missing intermediate: array when the *next*
segment parses as a number, object otherwise (also object when there is no
next segment, i.e. `parts[i+1]` is `undefined`). -/
def mkContainer (nextPart : Option String) (fresh : Nat) : JsValue :=
  match nextPart with
  | none => .obj fresh []
  | some q =>
      match parseIntJs q with
      | none => .obj fresh []
      | some _ => .arr fresh []

/-- Navigation-and-assignment loop of `setNestedValue`: `parts` is the list
of intermediate segments (the source pops the last segment off first) and
`lastPart` the final one.  In strict mode, `part in current` and property
assignment throw `TypeError` when `current` is a primitive, `null` or
`undefined`.  A negative array index stores the value on a string property
that none of the engine's readers (`getNestedValue`, `deleteNestedValue`,
path diffing) can observe; the model leaves the elements unchanged after
running the sub-assignment for its errors (none can occur, as created
containers always accept the following segment). -/
def setNestedLoop : JsValue → List String → String → JsValue → Nat →
    Except String (JsValue × Nat)
  | current, [], lastPart, value, fresh =>
      match current with
      | .arr id elems =>
          match parseIntJs lastPart with
          | none =>
              .error ("[Zust] Invalid array index \"" ++ lastPart ++ "\". Expected a number.")
          | some index =>
              if index < 0 then .ok (.arr id elems, fresh)
              else
                .ok (.arr id ((padTo elems index.toNat).set index.toNat value), fresh)
      | .obj id fields => .ok (.obj id (setField fields lastPart value), fresh)
      | _ => .error "TypeError: cannot create property on a non-object"
  | current, part :: rest, lastPart, value, fresh =>
      match current with
      | .arr id elems =>
          match parseIntJs part with
          | none =>
              .error ("[Zust] Invalid array index \"" ++ part ++ "\". Expected a number.")
          | some index =>
              if index < 0 then
                match setNestedLoop (mkContainer rest.head? fresh) rest lastPart value (fresh + 1) with
                | .error e => .error e
                | .ok (_, fr) => .ok (.arr id elems, fr)
              else
                let idx := index.toNat
                let padded := padTo elems idx
                if isNullish (padded.getD idx .undefined) then
                  match setNestedLoop (mkContainer rest.head? fresh) rest lastPart value (fresh + 1) with
                  | .error e => .error e
                  | .ok (child, fr) => .ok (.arr id (padded.set idx child), fr)
                else
                  match setNestedLoop (padded.getD idx .undefined) rest lastPart value fresh with
                  | .error e => .error e
                  | .ok (child, fr) => .ok (.arr id (padded.set idx child), fr)
      | .obj id fields =>
          if hasField fields part = false ∨ isNullish (lookupField fields part) then
            match setNestedLoop (mkContainer rest.head? fresh) rest lastPart value (fresh + 1) with
            | .error e => .error e
            | .ok (child, fr) => .ok (.obj id (setField fields part child), fr)
          else
            match setNestedLoop (lookupField fields part) rest lastPart value fresh with
            | .error e => .error e
            | .ok (child, fr) => .ok (.obj id (setField fields part child), fr)
      | _ => .error "TypeError: cannot use the in operator on a non-object"

/-- `parts.pop()` as a pure split: intermediate segments and the last one. -/
def splitLast : List String → Option (List String × String)
  | [] => none
  | [x] => some ([], x)
  | x :: y :: rest =>
      match splitLast (y :: rest) with
      | some (ys, l) => some (x :: ys, l)
      | none => none

/-- `setNestedValue(obj, path, value)` on a fresh parse of `path`, returning
the updated tree (the source mutates `obj`, whose callers pass an owned deep
copy).  The root is constrained by the signature to a string-keyed record
(`T extends Record<string, unknown>`), so a non-object root is a type
violation.  `fresh` is the identity allocator. -/
def setNestedValue (obj : JsValue) (path : String) (value : JsValue)
    (fresh : Nat) : Except String (JsValue × Nat) :=
  if path = "" then .error "[Zust] Cannot set empty path"
  else
    match parsePath path with
    | .error e => .error e
    | .ok parts =>
        match obj with
        | .obj id fields =>
            match parts with
            | [] => .error "[Zust] Invalid path: cannot extract last part"
            | [key] => .ok (.obj id (setField fields key value), fresh)
            | _ =>
                match splitLast parts with
                | none => .error "[Zust] Invalid path: cannot extract last part"
                | some (nav, lastPart) =>
                    setNestedLoop (.obj id fields) nav lastPart value fresh
        | _ => .error "TypeError: root is not a record"

/-- `array.splice(index, 1)`: drop the element at `index`. -/
def spliceAt (elems : List JsValue) (index : Nat) : List JsValue :=
  elems.take index ++ elems.drop (index + 1)

/-- Navigation-and-deletion loop of `deleteNestedValue`, returning the
updated tree and the reported `boolean`.  A failed navigation leaves the
tree unchanged and returns `false`.  At the target, an array parent splices
a valid index (`true`) and reports `false` for `NaN`/negative/out-of-range
indices; an object parent runs `delete`, which in JavaScript returns `true`
even when the key is absent; a primitive parent reports `false`. -/
def deleteLoop : JsValue → List String → String → JsValue × Bool
  | current, [], lastPart =>
      match current with
      | .arr id elems =>
          match parseIntJs lastPart with
          | none => (.arr id elems, false)
          | some index =>
              if index < 0 ∨ (elems.length : Int) ≤ index then (.arr id elems, false)
              else (.arr id (spliceAt elems index.toNat), true)
      | .obj id fields => (.obj id (removeField fields lastPart), true)
      | other => (other, false)
  | current, part :: rest, lastPart =>
      match current with
      | .arr id elems =>
          match parseIntJs part with
          | none => (.arr id elems, false)
          | some index =>
              if index < 0 ∨ (elems.length : Int) ≤ index then (.arr id elems, false)
              else
                let res := deleteLoop (elems.getD index.toNat .undefined) rest lastPart
                (.arr id (elems.set index.toNat res.1), res.2)
      | .obj id fields =>
          if hasField fields part then
            let res := deleteLoop (lookupField fields part) rest lastPart
            (.obj id (setField fields part res.1), res.2)
          else (.obj id fields, false)
      | other => (other, false)

/-- `deleteNestedValue(obj, path)` on a fresh parse of `path`.  Errors come
only from `parsePath`; an empty path returns `false`. -/
def deleteNestedValue (obj : JsValue) (path : String) :
    Except String (JsValue × Bool) :=
  if path = "" then .ok (obj, false)
  else
    match parsePath path with
    | .error e => .error e
    | .ok parts =>
        match splitLast parts with
        | none => .ok (obj, false)
        | some (nav, lastPart) => .ok (deleteLoop obj nav lastPart)

mutual

/-- `structuredClone`: identical tree with fresh identities everywhere. -/
def structClone : JsValue → Nat → JsValue × Nat
  | .obj _ fields, fresh =>
      let r := structCloneFields fields (fresh + 1)
      (.obj fresh r.1, r.2)
  | .arr _ elems, fresh =>
      let r := structCloneElems elems (fresh + 1)
      (.arr fresh r.1, r.2)
  | v, fresh => (v, fresh)

/-- Clone of an object's fields. -/
def structCloneFields : List (String × JsValue) → Nat → List (String × JsValue) × Nat
  | [], fresh => ([], fresh)
  | (k, v) :: rest, fresh =>
      let rv := structClone v fresh
      let rr := structCloneFields rest rv.2
      ((k, rv.1) :: rr.1, rr.2)

/-- Clone of an array's elements. -/
def structCloneElems : List JsValue → Nat → List JsValue × Nat
  | [], fresh => ([], fresh)
  | v :: rest, fresh =>
      let rv := structClone v fresh
      let rr := structCloneElems rest rv.2
      (rv.1 :: rr.1, rr.2)

end

mutual

/-- `JSON.parse(JSON.stringify(state))` — the deep copy used by the history
manager: fresh identities, object fields with `undefined` values dropped,
`undefined` array elements turned into `null` (history states are objects,
so the top-level value is never `undefined`). -/
def jsonClone : JsValue → Nat → JsValue × Nat
  | .obj _ fields, fresh =>
      let r := jsonCloneFields fields (fresh + 1)
      (.obj fresh r.1, r.2)
  | .arr _ elems, fresh =>
      let r := jsonCloneElems elems (fresh + 1)
      (.arr fresh r.1, r.2)
  | v, fresh => (v, fresh)

/-- JSON copy of object fields (drops `undefined`-valued keys). -/
def jsonCloneFields : List (String × JsValue) → Nat → List (String × JsValue) × Nat
  | [], fresh => ([], fresh)
  | (_, .undefined) :: rest, fresh => jsonCloneFields rest fresh
  | (k, v) :: rest, fresh =>
      let rv := jsonClone v fresh
      let rr := jsonCloneFields rest rv.2
      ((k, rv.1) :: rr.1, rr.2)

/-- JSON copy of array elements (`undefined` becomes `null`). -/
def jsonCloneElems : List JsValue → Nat → List JsValue × Nat
  | [], fresh => ([], fresh)
  | .undefined :: rest, fresh =>
      let rr := jsonCloneElems rest fresh
      (.null :: rr.1, rr.2)
  | v :: rest, fresh =>
      let rv := jsonClone v fresh
      let rr := jsonCloneElems rest rv.2
      (rv.1 :: rr.1, rr.2)

end

/-! ## The module-level path cache

`parsePath` stores the segment array in a module-level `Map` and returns the
stored array itself, both on a miss and on a hit.  `setNestedValue` and
`deleteNestedValue` then call `.pop()` on that very array, so the cache entry
for the path silently loses its last segment — observable by every later
parse of the same path string. -/

/-- Insertion-ordered cache contents: raw path string to segment array. -/
abbrev PathCache := List (String × List String)

/-- `pathCache.get(path)`. -/
def cacheLookup (cache : PathCache) (path : String) : Option (List String) :=
  (cache.find? (fun e => e.1 == path)).map (fun e => e.2)

/-- `MAX_CACHE_SIZE`. -/
def MAX_CACHE_SIZE : Nat := 1000

/-- `pathCache.set(path, parts)` preceded by the capacity check that evicts
the first-inserted key. -/
def cacheStore (cache : PathCache) (path : String) (parts : List String) : PathCache :=
  (if MAX_CACHE_SIZE ≤ cache.length then cache.drop 1 else cache) ++ [(path, parts)]

/-- In-place mutation of the array stored for `path` (models a destructive
`.pop()` on the shared array; the entry keeps its position). -/
def cacheOverwrite (cache : PathCache) (path : String) (parts : List String) : PathCache :=
  cache.map (fun e => if e.1 == path then (path, parts) else e)

/-- `parsePath` with the module-level cache made explicit. -/
def parsePathC (cache : PathCache) (path : String) :
    PathCache × Except String (List String) :=
  if path = "" then (cache, .error "[Zust] Path must be a non-empty string")
  else
    match cacheLookup cache path with
    | some cached => (cache, .ok cached)
    | none =>
        let parts := splitDot path
        match validateSegments parts with
        | .error e => (cache, .error e)
        | .ok _ => (cacheStore cache path parts, .ok parts)

/-- `getNestedValue` with the cache made explicit (reads do not mutate the
cached array). -/
def getNestedValueC (cache : PathCache) (obj : JsValue) (path : String) :
    PathCache × Except String JsValue :=
  if path = "" then (cache, .ok obj)
  else
    match parsePathC cache path with
    | (c1, .error e) => (c1, .error e)
    | (c1, .ok parts) => (c1, getNestedLoop obj parts)

/-- `setNestedValue` with the cache made explicit.  For a multi-segment path
the `parts.pop()` in the source shortens the array shared with the cache:
the cache entry for `path` is overwritten with the intermediate segments. -/
def setNestedValueC (cache : PathCache) (obj : JsValue) (path : String)
    (value : JsValue) (fresh : Nat) :
    PathCache × Except String (JsValue × Nat) :=
  if path = "" then (cache, .error "[Zust] Cannot set empty path")
  else
    match parsePathC cache path with
    | (c1, .error e) => (c1, .error e)
    | (c1, .ok parts) =>
        match obj with
        | .obj id fields =>
            match parts with
            | [] => (c1, .error "[Zust] Invalid path: cannot extract last part")
            | [key] => (c1, .ok (.obj id (setField fields key value), fresh))
            | _ =>
                match splitLast parts with
                | none => (c1, .error "[Zust] Invalid path: cannot extract last part")
                | some (nav, lastPart) =>
                    let c2 := cacheOverwrite c1 path nav
                    (c2, setNestedLoop (.obj id fields) nav lastPart value fresh)
        | _ => (c1, .error "TypeError: root is not a record")

/-! ## Store engine (`createStore.ts`) and `setDeep` (`engine/index.ts`)

Listeners are identified by numbers; invoking a listener is modelled by
emitting an `Event`.  The store configuration modelled here is the plain one
(no middleware, no persistence, no history, no computed values) — the
configurations with history and computed values are modelled separately
below for the claims that need them. -/

/-- An invocation of a subscriber callback. -/
inductive Event where
  | global (listener : Nat) (next prev : JsValue) : Event
  | pathCb (listener : Nat) (path : String) (newVal oldVal full : JsValue) : Event

/-- `getPathValue` of `createStore.ts` (plain `split(".")`, no validation,
no cache; a `NaN` or out-of-range array index yields `undefined`). -/
def getPathValueLoop : JsValue → List String → JsValue
  | current, [] => current
  | .null, _ :: _ => .undefined
  | .undefined, _ :: _ => .undefined
  | .arr _ elems, part :: rest =>
      match parseIntJs part with
      | none => .undefined
      | some index =>
          if index < 0 ∨ (elems.length : Int) ≤ index then .undefined
          else getPathValueLoop (elems.getD index.toNat .undefined) rest
  | .obj _ fields, part :: rest => getPathValueLoop (lookupField fields part) rest
  | _, _ :: _ => .undefined

/-- `getPathValue(obj, path)`. -/
def getPathValue (obj : JsValue) (path : String) : JsValue :=
  if path = "" then obj else getPathValueLoop obj (splitDot path)

/-- Engine state: canonical state reference, identity allocator, the two
subscriber collections, and the module-level batch queue (`pending` flag and
queued notification thunks, each closing over a `(prev, next)` pair). -/
structure Engine where
  state : JsValue
  fresh : Nat
  listeners : List Nat
  pathListeners : List (String × List Nat)
  batchPending : Bool
  batchUpdates : List (JsValue × JsValue)

/-- `notifyListeners(prevState, newState)`: every global listener in
registration order, then for each watched path whose value changed by
`Object.is`, every callback of that path. -/
def notifyListeners (e : Engine) (prev next : JsValue) : List Event :=
  e.listeners.map (fun l => Event.global l next prev)
    ++ (e.pathListeners.map (fun pl =>
          let oldValue := getPathValue prev pl.1
          let newValue := getPathValue next pl.1
          if objectIs oldValue newValue then []
          else pl.2.map (fun c => Event.pathCb c pl.1 newValue oldValue next))).flatten

/-- `{ ...state, ...partial }`: existing keys keep their position and take
`partial`'s value, new keys are appended (spreading a primitive contributes
no keys; partial states are objects in practice). -/
def spreadMerge (fields : List (String × JsValue)) : JsValue → List (String × JsValue)
  | .obj _ qf => qf.foldl (fun acc kv => setField acc kv.1 kv.2) fields
  | _ => fields

/-- Own fields of a value (`[]` for non-objects; array index properties are
not spread-modelled, store states being plain objects). -/
def fieldsOf : JsValue → List (String × JsValue)
  | .obj _ fields => fields
  | _ => []

/-- `setState(partial, replace)`: compute the next state (wholesale on
`replace`, shallow spread-merge otherwise — the merge allocates a new
object), skip when `Object.is`-equal to the current state, otherwise swap
the canonical reference and either notify immediately or, while the batch
flag is set, push a notification thunk onto the batch queue. -/
def setStateE (e : Engine) (upd : JsValue) (replace : Bool) : Engine × List Event :=
  let prev := e.state
  let next : JsValue × Nat :=
    if replace then (upd, e.fresh)
    else (.obj e.fresh (spreadMerge (fieldsOf prev) upd), e.fresh + 1)
  if objectIs prev next.1 then (e, [])
  else
    let e1 := { e with state := next.1, fresh := next.2 }
    if e1.batchPending then
      ({ e1 with batchUpdates := e1.batchUpdates ++ [(prev, next.1)] }, [])
    else (e1, notifyListeners e1 prev next.1)

/-- `setDeep(path, value)` of `engine/index.ts` for a plain store (identity
middleware chain; no persistence, history or computed values):
`structuredClone` the state, read the current value (aborting on a path
error with the canonical state untouched), write the new value into the
clone, and hand the clone to `setState(…, replace)`.  The third component
is the propagated exception, if any.  Paths are parsed fresh here; for the
single-segment paths used by the claims settled against this model the
module path cache is never corrupted, so a cached parse coincides with a
fresh one. -/
def setDeepE (e : Engine) (path : String) (v : JsValue) :
    Engine × List Event × Option String :=
  let cl := structClone e.state e.fresh
  match getNestedValue e.state path with
  | .error err => (e, [], some err)
  | .ok _ =>
      match setNestedValue cl.1 path v cl.2 with
      | .error err => (e, [], some err)
      | .ok (newState, fr) =>
          let r := setStateE { e with fresh := fr } newState true
          (r.1, r.2, none)

/-- Store operations a caller can perform after creation. -/
inductive StoreOp where
  | setDeepOp (path : String) (v : JsValue) : StoreOp
  | setStateOp (upd : JsValue) (replace : Bool) : StoreOp

/-- Run one operation, collecting the emitted events. -/
def applyOp (e : Engine) : StoreOp → Engine × List Event
  | .setDeepOp p v =>
      let r := setDeepE e p v
      (r.1, r.2.1)
  | .setStateOp upd repl => setStateE e upd repl

/-- Run a sequence of operations, collecting all emitted events in order. -/
def runOps : Engine → List StoreOp → Engine × List Event
  | e, [] => (e, [])
  | e, op :: rest =>
      let r := applyOp e op
      let rr := runOps r.1 rest
      (rr.1, r.2 ++ rr.2)

/-- `flushBatchQueue()`: take the queued updates, reset the queue and the
pending flag, then run every queued notification thunk in order (each one
reads the subscriber collections at flush time). -/
def flushBatchQueue (e : Engine) : Engine × List Event :=
  let updates := e.batchUpdates
  let e1 := { e with batchUpdates := [], batchPending := false }
  (e1, (updates.map (fun pn => notifyListeners e1 pn.1 pn.2)).flatten)

/-- `batch(fn)` where `fn` performs the given operations: set the pending
flag, run the body, and — when this is the outermost batch — run the
zero-delay scheduled flush.  Returns (engine, events emitted inside the
scope, events emitted by the flush). -/
def batchRun (e : Engine) (ops : List StoreOp) : Engine × List Event × List Event :=
  let wasBatching := e.batchPending
  let r := runOps { e with batchPending := true } ops
  if wasBatching then (r.1, r.2, [])
  else
    let f := flushBatchQueue r.1
    (f.1, r.2, f.2)

/-- `destroy()` of the store engine: clear both subscriber collections. -/
def destroyE (e : Engine) : Engine :=
  { e with listeners := [], pathListeners := [] }

/-! ## Computed values (`computedEngine.ts`)

`compute` functions are modelled as total Lean functions (the `catch` around
a user `compute` is unreachable for them).  In the source `cachedValue` has
type `R | undefined` and the cache check is `cachedValue === undefined`, so
a field holding `undefined` and an unset field are indistinguishable: the
model stores it as a plain `JsValue` defaulting to `undefined`.  `lastDeps` is
an array or `undefined` (`delete` makes it `undefined`), modelled as an
`Option`. -/

/-- One computed entry (normalized config plus mutable cache cells). -/
structure CompEntry where
  compute : JsValue → JsValue
  deps : List String
  cache : Bool
  cachedValue : JsValue
  lastDeps : Option (List JsValue)
  computeCount : Nat

/-- `getNestedValue` with a thrown error caught and turned into
`undefined` (the `try`/`catch` around each dependency read). -/
def nestedOrUndef (state : JsValue) (path : String) : JsValue :=
  match getNestedValue state path with
  | .ok v => v
  | .error _ => .undefined

/-- `getDependencyValues(deps, state)`: `getNestedValue` per dependency,
with thrown errors caught and turned into `undefined`. -/
def getDependencyValues (deps : List String) (state : JsValue) : List JsValue :=
  deps.map (fun dep => nestedOrUndef state dep)

/-- `shouldUseCache(entry, state)`: no cached value or no dependency
snapshot — recompute; empty dependency list — always recompute; otherwise
use the cache exactly when every current dependency value is
`Object.is`-equal to the snapshotted one. -/
def shouldUseCache (entry : CompEntry) (state : JsValue) : Bool :=
  match entry.lastDeps with
  | none => false
  | some last =>
      if isUndefined entry.cachedValue then false
      else if entry.deps.length = 0 then false
      else
        let current := getDependencyValues entry.deps state
        if current.length ≠ last.length then false
        else (current.zip last).all (fun ab => objectIs ab.1 ab.2)

/-- `ComputedEngine.get(key)` on one entry: serve the cache when allowed,
otherwise invoke `compute`, bump the invocation counter and (when caching
is on) store the result together with a fresh dependency snapshot. -/
def computedGet (entry : CompEntry) (state : JsValue) : JsValue × CompEntry :=
  if entry.cache && shouldUseCache entry state then (entry.cachedValue, entry)
  else
    let value := entry.compute state
    let e1 := { entry with computeCount := entry.computeCount + 1 }
    let e2 :=
      if entry.cache then
        { e1 with cachedValue := value,
                  lastDeps := some (getDependencyValues entry.deps state) }
      else e1
    (value, e2)

/-- `invalidate(key)`: `delete entry.cachedValue; delete entry.lastDeps`. -/
def invalidateEntry (entry : CompEntry) : CompEntry :=
  { entry with cachedValue := .undefined, lastDeps := none }

/-- `pathMatches(pattern, path)`: exact match or a change strictly below the
watched subtree. -/
def pathMatches (pattern path : String) : Bool :=
  pattern == path || path.startsWith (pattern ++ ".")

/-- `shouldInvalidate(changedPath)`: keys of the entries having a dependency
matched by the changed path. -/
def shouldInvalidate (computed : List (String × CompEntry)) (changedPath : String) :
    List String :=
  (computed.filter (fun ke => ke.2.deps.any (fun dep => pathMatches dep changedPath))).map
    (fun ke => ke.1)

/-- A store with computed values (no middleware, persistence or history). -/
structure CompStore where
  state : JsValue
  fresh : Nat
  computed : List (String × CompEntry)

/-- `setDeep` for a store with computed values: clone, read, write, swap
the canonical state (replace), then invalidate the affected entries. -/
def setDeepC (s : CompStore) (path : String) (v : JsValue) :
    Except String CompStore :=
  let cl := structClone s.state s.fresh
  match getNestedValue s.state path with
  | .error err => .error err
  | .ok _ =>
      match setNestedValue cl.1 path v cl.2 with
      | .error err => .error err
      | .ok (newState, fr) =>
          let toInvalidate := shouldInvalidate s.computed path
          .ok { state := newState, fresh := fr,
                computed := s.computed.map (fun ke =>
                  if toInvalidate.contains ke.1 then (ke.1, invalidateEntry ke.2)
                  else ke) }

/-- Reading a computed key on the store (the getter installed by
`defineGetters` calls `ComputedEngine.get`); returns the value and the
store with the entry's cache cells updated. -/
def storeGetComputed (s : CompStore) (key : String) : JsValue × CompStore :=
  match s.computed.find? (fun ke => ke.1 == key) with
  | none => (.undefined, s)
  | some ke =>
      let r := computedGet ke.2 s.state
      (r.1, { s with computed := s.computed.map (fun e =>
                if e.1 == key then (key, r.2) else e) })

/-! ## History manager (`historyManager.ts`)

Timestamps (`Date.now()`) are explicit `Nat` arguments.  `past` is stored
newest-first (the source pushes/pops at the array's end and evicts with
`shift()` at the front; in this representation push/pop work at the head
and eviction drops the last element).  `future` is stored as in the source
(`unshift`/`shift` at the head). -/

/-- A history snapshot. -/
structure Snapshot where
  state : JsValue
  timestamp : Nat

/-- History manager state (`Required<HistoryConfig>` inlined). -/
structure HistModel where
  past : List Snapshot
  future : List Snapshot
  currentState : JsValue
  lastCaptureTime : Nat
  enabled : Bool
  maxSize : Nat
  captureInterval : Nat
  isRestoring : Bool

/-- `captureImmediate(state)` at time `now`: deep-copy the new state
(JSON round-trip), push the *pre-change* state onto `past` (evicting the
oldest entry beyond `maxSize`), clear `future`, and advance
`currentState`/`lastCaptureTime`. -/
def captureImmediate (h : HistModel) (fresh : Nat) (now : Nat) (state : JsValue) :
    HistModel × Nat :=
  let snap := jsonClone state fresh
  let pushed := { state := h.currentState, timestamp := h.lastCaptureTime } :: h.past
  let past := if h.maxSize < pushed.length then pushed.dropLast else pushed
  ({ h with past := past, future := [],
            currentState := snap.1, lastCaptureTime := now }, snap.2)

/-- `capture(state)` at time `now`: no-op while disabled or restoring; a
call within `captureInterval` of the last committed capture only
(re)schedules a deferred `captureImmediate` — the claims below are settled
for committed captures, where the debounce window has elapsed. -/
def captureAt (h : HistModel) (fresh : Nat) (now : Nat) (state : JsValue) :
    HistModel × Nat :=
  if h.enabled = false ∨ h.isRestoring then (h, fresh)
  else if now - h.lastCaptureTime < h.captureInterval then (h, fresh)
  else captureImmediate h fresh now state

/-- `canUndo()`. -/
def canUndo (h : HistModel) : Bool := decide (0 < h.past.length)

/-- `canRedo()`. -/
def canRedo (h : HistModel) : Bool := decide (0 < h.future.length)

/-- A store with history: the engine's canonical state plus the manager
(`onRestore` is `setState(state, replace)` on the engine). -/
structure HStore where
  engine : JsValue
  fresh : Nat
  hist : HistModel

/-- `undo()` at time `now`: pop the newest `past` snapshot, park the current
state at the front of `future`, and restore the popped state as the
canonical state (notifications not tracked here; `isRestoring` suppresses
capture during the restore and is reset afterwards). -/
def undoH (s : HStore) (now : Nat) : HStore :=
  match s.hist.past with
  | [] => s
  | snapshot :: rest =>
      let fut := { state := s.hist.currentState, timestamp := now } :: s.hist.future
      { engine := snapshot.state, fresh := s.fresh,
        hist := { s.hist with past := rest, future := fut,
                              currentState := snapshot.state } }

/-- `redo()` at time `now`: shift the first `future` snapshot, push the
current state onto `past`, and restore the shifted state. -/
def redoH (s : HStore) (now : Nat) : HStore :=
  match s.hist.future with
  | [] => s
  | snapshot :: rest =>
      let pst := { state := s.hist.currentState, timestamp := now } :: s.hist.past
      { engine := snapshot.state, fresh := s.fresh,
        hist := { s.hist with past := pst, future := rest,
                              currentState := snapshot.state } }

/-- `setDeep` for a history-enabled store: clone, write, swap the canonical
state, then `capture` the new state at time `now` (committed when the
debounce window has elapsed; a deferred capture is a later
`captureImmediate` of the same state, not modelled as a separate step). -/
def setDeepH (s : HStore) (now : Nat) (path : String) (v : JsValue) :
    Except String HStore :=
  let cl := structClone s.engine s.fresh
  match getNestedValue s.engine path with
  | .error err => .error err
  | .ok _ =>
      match setNestedValue cl.1 path v cl.2 with
      | .error err => .error err
      | .ok (newState, fr) =>
          let r := captureAt s.hist fr now newState
          .ok { engine := newState, fresh := r.2, hist := r.1 }

/-- Construction of the manager: empty stacks, `lastCaptureTime = 0`,
defaulted configuration. -/
def initHist (initialState : JsValue) (maxSize captureInterval : Nat) : HistModel :=
  { past := [], future := [], currentState := initialState, lastCaptureTime := 0,
    enabled := true, maxSize := maxSize, captureInterval := captureInterval,
    isRestoring := false }

/-- `jump(steps)` going backwards: `undo()` iterated `min(|steps|, past.length)`
times. -/
def jumpBack (s : HStore) (now : Nat) (steps : Nat) : HStore :=
  (List.range (min steps s.hist.past.length)).foldl (fun acc _ => undoH acc now) s

/-- `jump(steps)` going forwards: `redo()` iterated
`min(steps, future.length)` times. -/
def jumpFwd (s : HStore) (now : Nat) (steps : Nat) : HStore :=
  (List.range (min steps s.hist.future.length)).foldl (fun acc _ => redoH acc now) s

/-- `clear()`. -/
def clearH (s : HStore) : HStore :=
  { s with hist := { s.hist with past := [], future := [] } }

/-- The operations a caller can perform on a history-enabled store. -/
inductive HistOp where
  | setDeepOp (now : Nat) (path : String) (v : JsValue) : HistOp
  | undoOp (now : Nat) : HistOp
  | redoOp (now : Nat) : HistOp
  | jumpOp (now : Nat) (steps : Int) : HistOp
  | clearOp : HistOp

/-- Run one operation (a failed `setDeep` leaves the store unchanged, the
exception propagating to the caller). -/
def applyHistOp (s : HStore) : HistOp → HStore
  | .setDeepOp now p v =>
      match setDeepH s now p v with
      | .error _ => s
      | .ok s1 => s1
  | .undoOp now => undoH s now
  | .redoOp now => redoH s now
  | .jumpOp now steps =>
      if steps < 0 then jumpBack s now steps.natAbs
      else jumpFwd s now steps.toNat
  | .clearOp => clearH s

/-- Run a sequence of operations. -/
def runHistOps (s : HStore) : List HistOp → HStore
  | [] => s
  | op :: rest => runHistOps (applyHistOp s op) rest

/-! ## Concrete claim scenarios (definitions) -/

/-- Store of the batching scenario: `{a:0, b:0, c:0}` with one global
subscriber (id 0) registered before the batch. -/
def c1Store : Engine :=
  { state := .obj 0 [("a", .num 0), ("b", .num 0), ("c", .num 0)], fresh := 1,
    listeners := [0], pathListeners := [], batchPending := false, batchUpdates := [] }

/-- Three `setDeep` calls wrapped in `batch`. -/
def c1Run : Engine × List Event × List Event :=
  batchRun c1Store [.setDeepOp "a" (.num 1), .setDeepOp "b" (.num 2), .setDeepOp "c" (.num 3)]

/-- State of the round-trip scenario: `{user: {name: "John"}}`. -/
def c2State : JsValue := .obj 0 [("user", .obj 1 [("name", .str "John")])]

/-- `set` then `get` of the same path through the shared module path cache
(the execution order inside the engine). -/
def setThenGetCached (cache : PathCache) (state : JsValue) (path : String)
    (v : JsValue) (fresh : Nat) : PathCache × Except String JsValue :=
  match setNestedValueC cache state path v fresh with
  | (c1, .error e) => (c1, .error e)
  | (c1, .ok (s1, _)) => getNestedValueC c1 s1 path

/-- `set` then `get` of the same path with each call parsing afresh (the
behaviour the specification describes). -/
def setThenGetFresh (state : JsValue) (path : String) (v : JsValue)
    (fresh : Nat) : Except String JsValue :=
  match setNestedValue state path v fresh with
  | .error e => .error e
  | .ok (s1, _) => getNestedValue s1 path

/-- Compute function of the computed-value scenario: the value at `"a"`. -/
def c4Compute : JsValue → JsValue := fun st =>
  match getNestedValue st "a" with
  | .ok v => v
  | .error _ => .undefined

/-- Cached computed entry with `deps = ["a", "b"]`, not yet computed. -/
def c4Entry : CompEntry :=
  { compute := c4Compute, deps := ["a", "b"], cache := true,
    cachedValue := .undefined, lastDeps := none, computeCount := 0 }

/-- Store of the computed-value scenario: `{a:1, b:2, c:0}` with the single
cached computed value `"total"`. -/
def c4Store : CompStore :=
  { state := .obj 0 [("a", .num 1), ("b", .num 2), ("c", .num 0)], fresh := 1,
    computed := [("total", c4Entry)] }

/-- After the first read of `"total"` (computed and cached). -/
def c4Step1 : CompStore := (storeGetComputed c4Store "total").2

/-- After `setDeep("a", 1)` — writing the value `"a"` already holds. -/
def c4Step2 : CompStore :=
  match setDeepC c4Step1 "a" (.num 1) with
  | .ok s => s
  | .error _ => c4Step1

/-- Invocation counter of a computed key. -/
def computeCountOf (s : CompStore) (key : String) : Nat :=
  match s.computed.find? (fun ke => ke.1 == key) with
  | some ke => ke.2.computeCount
  | none => 0

/-- The dependency value a store currently holds at a path (errors read as
`undefined`, as in `getDependencyValues`). -/
def depValueAt (s : CompStore) (path : String) : JsValue :=
  nestedOrUndef s.state path

/-- Initial state of the history scenario: `{counter: 0}`. -/
def c5s : JsValue := .obj 0 [("counter", .num 0)]

/-- History-enabled store over `{counter: 0}` with the default configuration
(`maxSize 50`, `captureInterval 100`). -/
def c5Init : HStore := { engine := c5s, fresh := 1, hist := initHist c5s 50 100 }

/-- After `setDeep("counter",1)`, `setDeep("counter",2)`,
`setDeep("counter",3)` at times 1000, 2000, 3000 — each capture outside the
debounce window, hence committed. -/
def c5AfterSets : HStore :=
  runHistOps c5Init
    [.setDeepOp 1000 "counter" (.num 1), .setDeepOp 2000 "counter" (.num 2),
     .setDeepOp 3000 "counter" (.num 3)]

/-- After three `undo()` calls. -/
def c5AfterUndos : HStore :=
  runHistOps c5AfterSets [.undoOp 4000, .undoOp 5000, .undoOp 6000]

/-- After three further `redo()` calls. -/
def c5AfterRedos : HStore :=
  runHistOps c5AfterUndos [.redoOp 7000, .redoOp 8000, .redoOp 9000]

/-- A history-enabled store reached from a fresh one by a sequence of
operations. -/
def c8Reach (initState : JsValue) (maxSize ci fresh : Nat) (ops : List HistOp) : HStore :=
  runHistOps { engine := initState, fresh := fresh, hist := initHist initState maxSize ci } ops

/-- A cached computed entry whose last computed result was `undefined`. -/
def c9Entry : CompEntry :=
  { compute := fun _ => .undefined, deps := ["a"], cache := true,
    cachedValue := .undefined, lastDeps := some [.num 1], computeCount := 5 }

/-- State read by the `c9Entry` scenario. -/
def c9State : JsValue := .obj 0 [("a", .num 1)]

/-- A cached computed entry in the coherent post-read state: cached value
defined, dependency snapshot matching the store below. -/
def c4CacheEntry : CompEntry :=
  { compute := fun _ => .num 42, deps := ["a", "b"], cache := true,
    cachedValue := .num 42, lastDeps := some [.num 1, .num 2], computeCount := 7 }

/-- A cached computed entry whose snapshot of `"a"` (5) no longer matches
the store value (1). -/
def c4StaleEntry : CompEntry :=
  { compute := fun _ => .num 42, deps := ["a", "b"], cache := true,
    cachedValue := .num 42, lastDeps := some [.num 5, .num 2], computeCount := 7 }

/-- Fields of the state used by the computed-value witnesses. -/
def c4Fields : List (String × JsValue) :=
  [("a", .num 1), ("b", .num 2), ("c", .num 0)]

/-! ## Theorems -/

/-- Claim C1 (code behaviour at the claimed scenario): wrapping three
`setDeep` calls in `batch` delivers no notification inside the batch scope,
and the scheduled flush then delivers *three* global notifications — one
per queued `setState` — not the single notification the claim (and the
repository's own batch test) state; the mutations themselves are all
applied. -/
theorem batch_three_setDeeps_notifies_three_times_after_flush :
    c1Run.2.1 = []
    ∧ c1Run.2.2.length = 3
    ∧ (c1Run.2.2.all (fun ev =>
        match ev with
        | .global 0 _ _ => true
        | _ => false)) = true
    ∧ getNestedValue c1Run.1.state "a" = .ok (.num 1)
    ∧ getNestedValue c1Run.1.state "b" = .ok (.num 2)
    ∧ getNestedValue c1Run.1.state "c" = .ok (.num 3) :=
  ⟨rfl, rfl, rfl, rfl, rfl, rfl⟩

/-- Claim C2 (code behaviour at the claimed scenario): writing
`"user.name"` with `setNestedValue` pops the segment array shared with the
module path cache, so the immediately following `getNestedValue` of the
same path resolves only `["user"]` and returns the *parent object* instead
of the written value; with a fresh parse per call (the specified behaviour)
the round-trip holds at the same input. -/
theorem set_then_get_same_path_returns_parent_via_shared_cache :
    setThenGetCached [] c2State "user.name" (.str "Jane") 2
      = ([("user.name", ["user"])], .ok (.obj 1 [("name", .str "Jane")]))
    ∧ setThenGetFresh c2State "user.name" (.str "Jane") 2 = .ok (.str "Jane") :=
  ⟨rfl, rfl⟩

/-- Claim C3: `setDeep("__proto__.polluted", …)` propagates the forbidden
path segment error synchronously from path validation, before any state
swap: the engine is returned unchanged, no listener is invoked, and the
reported error carries the `"__proto__"` forbidden-segment message — the
mutation is aborted outright, which is why `Object.prototype` cannot be
touched. -/
theorem setDeep_proto_path_throws_and_preserves_state (e : Engine) :
    setDeepE e "__proto__.polluted" (.bool true)
      = (e, [], some "[Zust] Forbidden path segment: \"__proto__\"") := rfl

/-- Claim C5: with history enabled (default `maxSize`/`captureInterval`)
and each capture committed, after setting `counter` to 1, 2, 3 the state
holds 3; three `undo()` calls restore `counter = 0`, and three `redo()`
calls restore `counter = 3`. -/
theorem history_undo3_then_redo3_roundtrip :
    getNestedValue c5AfterSets.engine "counter" = .ok (.num 3)
    ∧ getNestedValue c5AfterUndos.engine "counter" = .ok (.num 0)
    ∧ getNestedValue c5AfterRedos.engine "counter" = .ok (.num 3) :=
  ⟨rfl, rfl, rfl⟩

/-- Claim C9: a cached computed entry whose stored value is `undefined` is
never served from cache — the next read invokes `compute` (the invocation
counter increments and the returned value is the fresh computation),
whatever the dependency snapshot says. -/
theorem computed_undefined_result_never_served_from_cache
    (entry : CompEntry) (state : JsValue)
    (hc : entry.cache = true) (hu : entry.cachedValue = JsValue.undefined) :
    (computedGet entry state).1 = entry.compute state
    ∧ (computedGet entry state).2.computeCount = entry.computeCount + 1 := by
  have hsc : shouldUseCache entry state = false := by
    unfold shouldUseCache
    cases hld : entry.lastDeps with
    | none => rfl
    | some last => rw [hu]; rfl
  unfold computedGet
  rw [hc, hsc]
  simp

/-- Witness for C9 at a concrete entry and state. -/
theorem computed_undefined_result_never_served_from_cache_witness :
    c9Entry.cache = true ∧ c9Entry.cachedValue = JsValue.undefined
    ∧ ((computedGet c9Entry c9State).1 = c9Entry.compute c9State
       ∧ (computedGet c9Entry c9State).2.computeCount = c9Entry.computeCount + 1) :=
  ⟨rfl, rfl, computed_undefined_result_never_served_from_cache c9Entry c9State rfl rfl⟩

/-- Claim C4, counterexample: `setDeep("a", 1)` writes the value `"a"`
already holds, so neither dependency of the computed value changes by
`Object.is` — yet the write invalidates the entry (its path matches the
dependency `"a"`), and the next read re-invokes `compute`: the invocation
count goes from 1 to 2 with both dependency values unchanged.  This refutes
“re-invokes … *only if* the value at a or b changed”. -/
theorem computed_recomputes_after_same_value_setDeep :
    objectIs (depValueAt c4Step1 "a") (depValueAt c4Step2 "a") = true
    ∧ objectIs (depValueAt c4Step1 "b") (depValueAt c4Step2 "b") = true
    ∧ computeCountOf c4Step1 "total" = 1
    ∧ computeCountOf c4Step2 "total" = 1
    ∧ computeCountOf (storeGetComputed c4Step2 "total").2 "total" = 2 :=
  ⟨rfl, rfl, rfl, rfl, rfl⟩

/-- Claim C6, counterexample: on an array container, the segment `"-1"`
*does* parse (`parseInt` yields −1) but not as a non-negative integer, and
`getNestedValue` returns `undefined` instead of throwing — refuting “throws
if and only if the segment does not parse as a non-negative integer”. -/
theorem getNested_negative_index_returns_undefined_not_error :
    parseIntJs "-1" = some (-1)
    ∧ getNestedValue (.obj 0 [("a", .arr 1 [.num 5])]) "a.-1" = .ok .undefined :=
  ⟨rfl, rfl⟩

/-- Claim C7, counterexample: deleting a key that is absent from an object
parent returns `true` (JavaScript's `delete` reports `true` for missing
properties), although the path `"b"` does not resolve in `{}` — refuting
“returns false whenever the path does not resolve”. -/
theorem delete_unresolved_object_key_returns_true :
    deleteNestedValue (.obj 0 []) "b" = .ok (.obj 0 [], true) := rfl

/-- Claim C6 (amended): at an array container, `getNestedValue` throws
exactly when the segment does not parse as an integer at all (`parseInt`
yields `NaN`); a segment parsing to a negative index yields `undefined`
without error, as does one parsing to an index beyond the length; a valid
index continues into the element; and every non-container intermediate
value (number, boolean, string, `null`, `undefined`) yields `undefined`. -/
theorem getNested_array_and_scalar_step_semantics
    (id : Nat) (elems : List JsValue) (p : String) (rest : List String) :
    (parseIntJs p = none →
      getNestedLoop (.arr id elems) (p :: rest)
        = .error ("[Zust] Invalid array index \"" ++ p ++ "\". Expected a number."))
    ∧ (∀ i : Int, parseIntJs p = some i → i < 0 →
        getNestedLoop (.arr id elems) (p :: rest) = .ok .undefined)
    ∧ (∀ i : Int, parseIntJs p = some i → (elems.length : Int) ≤ i →
        getNestedLoop (.arr id elems) (p :: rest) = .ok .undefined)
    ∧ (∀ i : Int, parseIntJs p = some i → 0 ≤ i → i < (elems.length : Int) →
        getNestedLoop (.arr id elems) (p :: rest)
          = getNestedLoop (elems.getD i.toNat .undefined) rest)
    ∧ (∀ n : Int, getNestedLoop (.num n) (p :: rest) = .ok .undefined)
    ∧ (∀ b : Bool, getNestedLoop (.bool b) (p :: rest) = .ok .undefined)
    ∧ (∀ s : String, getNestedLoop (.str s) (p :: rest) = .ok .undefined)
    ∧ getNestedLoop .null (p :: rest) = .ok .undefined
    ∧ getNestedLoop .undefined (p :: rest) = .ok .undefined := by
  refine ⟨?_, ?_, ?_, ?_, fun n => rfl, fun b => rfl, fun s => rfl, rfl, rfl⟩
  · intro h
    rw [getNestedLoop.eq_def]
    dsimp only
    rw [h]
  · intro i h hi
    rw [getNestedLoop.eq_def]
    dsimp only
    rw [h]
    dsimp only
    rw [if_pos (Or.inl hi)]
  · intro i h hi
    rw [getNestedLoop.eq_def]
    dsimp only
    rw [h]
    dsimp only
    rw [if_pos (Or.inr hi)]
  · intro i h h0 hl
    rw [getNestedLoop.eq_def]
    dsimp only
    rw [h]
    dsimp only
    rw [if_neg (by omega)]

/-- Witness for C6 at the array `[5]`: segment `"x"` throws, `"-1"` and
`"7"` read as `undefined`, `"0"` continues into the element. -/
theorem getNested_array_and_scalar_step_semantics_witness :
    getNestedLoop (.arr 1 [.num 5]) ["x"]
        = .error ("[Zust] Invalid array index \"" ++ "x" ++ "\". Expected a number.")
    ∧ getNestedLoop (.arr 1 [.num 5]) ["-1"] = .ok .undefined
    ∧ getNestedLoop (.arr 1 [.num 5]) ["7"] = .ok .undefined
    ∧ getNestedLoop (.arr 1 [.num 5]) ["0", "z"] = getNestedLoop (.num 5) ["z"] :=
  ⟨(getNested_array_and_scalar_step_semantics 1 [.num 5] "x" []).1 (by rfl),
   (getNested_array_and_scalar_step_semantics 1 [.num 5] "-1" []).2.1 (-1) (by rfl) (by norm_num),
   (getNested_array_and_scalar_step_semantics 1 [.num 5] "7" []).2.2.1 7 (by rfl) (by norm_num),
   (getNested_array_and_scalar_step_semantics 1 [.num 5] "0" ["z"]).2.2.2.1 0 (by rfl) le_rfl (by norm_num)⟩

/-- Claim C7 (amended): `deleteNestedValue` behaviour.  An array target
with a valid index is removed via splice — the result is `take i ++ drop
(i+1)`, the length decreases by one, indices below `i` are untouched and
every index from `i` on shifts down by one — and reports `true`; an array
target with a `NaN`, negative or out-of-range index reports `false` with
the tree untouched; an object target always reports `true` (JavaScript's
`delete`), removing the key when present and leaving the object unchanged
when absent; navigation reports `false` without mutation at a missing
object key, an invalid array index, or a non-container value. -/
theorem delete_splices_arrays_and_always_true_on_objects
    (id : Nat) (elems : List JsValue) (fields : List (String × JsValue))
    (p lastp : String) (rest : List String) :
    (∀ i : Int, parseIntJs lastp = some i → 0 ≤ i → i < (elems.length : Int) →
        deleteLoop (.arr id elems) [] lastp = (.arr id (spliceAt elems i.toNat), true)
        ∧ (spliceAt elems i.toNat).length = elems.length - 1
        ∧ (∀ j : Nat, j < i.toNat →
            (spliceAt elems i.toNat).getD j .undefined = elems.getD j .undefined)
        ∧ (∀ j : Nat, i.toNat ≤ j →
            (spliceAt elems i.toNat).getD j .undefined = elems.getD (j + 1) .undefined))
    ∧ (parseIntJs lastp = none → deleteLoop (.arr id elems) [] lastp = (.arr id elems, false))
    ∧ (∀ i : Int, parseIntJs lastp = some i → i < 0 ∨ (elems.length : Int) ≤ i →
        deleteLoop (.arr id elems) [] lastp = (.arr id elems, false))
    ∧ deleteLoop (.obj id fields) [] lastp = (.obj id (removeField fields lastp), true)
    ∧ (hasField fields lastp = false → removeField fields lastp = fields)
    ∧ (hasField fields p = false →
        deleteLoop (.obj id fields) (p :: rest) lastp = (.obj id fields, false))
    ∧ (parseIntJs p = none →
        deleteLoop (.arr id elems) (p :: rest) lastp = (.arr id elems, false))
    ∧ (∀ i : Int, parseIntJs p = some i → i < 0 ∨ (elems.length : Int) ≤ i →
        deleteLoop (.arr id elems) (p :: rest) lastp = (.arr id elems, false))
    ∧ (∀ n : Int, deleteLoop (.num n) (p :: rest) lastp = (.num n, false))
    ∧ deleteLoop .undefined (p :: rest) lastp = (.undefined, false) := by
  refine ⟨?_, ?_, ?_, rfl, ?_, ?_, ?_, ?_, fun n => rfl, rfl⟩
  · intro i h h0 hl
    have hi : i.toNat < elems.length := by omega
    refine ⟨?_, ?_, ?_, ?_⟩
    · rw [deleteLoop.eq_def]
      dsimp only
      rw [h]
      dsimp only
      rw [if_neg (by omega)]
    · unfold spliceAt
      simp
      omega
    · intro j hj
      unfold spliceAt
      rw [List.getD_eq_getElem?_getD, List.getD_eq_getElem?_getD,
          List.getElem?_append_left (by simp; omega), List.getElem?_take, if_pos hj]
    · intro j hj
      unfold spliceAt
      rw [List.getD_eq_getElem?_getD, List.getD_eq_getElem?_getD,
          List.getElem?_append_right (by simp; omega), List.getElem?_drop]
      congr 2
      simp
      omega
  · intro h
    rw [deleteLoop.eq_def]
    dsimp only
    rw [h]
  · intro i h hi
    rw [deleteLoop.eq_def]
    dsimp only
    rw [h]
    dsimp only
    rw [if_pos hi]
  · intro h
    induction fields with
    | nil => rfl
    | cons kv rest2 ih =>
        unfold removeField
        unfold hasField at h
        simp only [List.any_cons, Bool.or_eq_false_iff] at h
        rw [if_neg (by simp [h.1])]
        rw [ih h.2]
  · intro h
    rw [deleteLoop.eq_def]
    dsimp only
    rw [h]
    rfl
  · intro h
    rw [deleteLoop.eq_def]
    dsimp only
    rw [h]
  · intro i h hi
    rw [deleteLoop.eq_def]
    dsimp only
    rw [h]
    dsimp only
    rw [if_pos hi]

/-- Witness for C7: splicing index 1 out of `[10, 20, 30]`, and the `false`
and missing-key cases, at concrete inputs. -/
theorem delete_splices_arrays_and_always_true_on_objects_witness :
    (deleteLoop (.arr 1 [.num 10, .num 20, .num 30]) [] "1"
        = (.arr 1 (spliceAt [.num 10, .num 20, .num 30] (1 : Int).toNat), true)
      ∧ (spliceAt [JsValue.num 10, .num 20, .num 30] (1 : Int).toNat).length
          = [JsValue.num 10, .num 20, .num 30].length - 1
      ∧ (∀ j : Nat, j < (1 : Int).toNat →
          (spliceAt [JsValue.num 10, .num 20, .num 30] (1 : Int).toNat).getD j .undefined
            = [JsValue.num 10, .num 20, .num 30].getD j .undefined)
      ∧ (∀ j : Nat, (1 : Int).toNat ≤ j →
          (spliceAt [JsValue.num 10, .num 20, .num 30] (1 : Int).toNat).getD j .undefined
            = [JsValue.num 10, .num 20, .num 30].getD (j + 1) .undefined))
    ∧ deleteLoop (.arr 1 [.num 10]) [] "5" = (.arr 1 [.num 10], false)
    ∧ deleteLoop (.obj 2 [("a", .num 1)]) ["b"] "x" = (.obj 2 [("a", .num 1)], false) :=
  ⟨(delete_splices_arrays_and_always_true_on_objects 1 [.num 10, .num 20, .num 30] [] "q" "1" []).1
      1 rfl (by norm_num) (by norm_num),
   (delete_splices_arrays_and_always_true_on_objects 1 [.num 10] [] "q" "5" []).2.2.1
      5 rfl (by norm_num),
   (delete_splices_arrays_and_always_true_on_objects 2 [] [("a", .num 1)] "b" "x" []).2.2.2.2.2.1
      rfl⟩

/-- A destroyed engine has no subscribers to notify. -/
theorem notifyListeners_destroyE (e : Engine) (prev next : JsValue) :
    notifyListeners (destroyE e) prev next = [] := rfl

/-- Flattening a list of empty lists. -/
theorem flatten_map_nil {α β : Type} (l : List α) :
    (l.map (fun _ => ([] : List β))).flatten = [] := by
  induction l with
  | nil => rfl
  | cons x xs ih => simp [ih]

/-- `setState` on a destroyed store performs the same state transition and
emits nothing. -/
theorem setStateE_destroyE (e : Engine) (upd : JsValue) (repl : Bool) :
    setStateE (destroyE e) upd repl = (destroyE (setStateE e upd repl).1, []) := by
  unfold setStateE destroyE notifyListeners
  dsimp only
  split_ifs <;> rfl

/-- `setDeep` on a destroyed store performs the same state transition,
reports the same error, and emits nothing. -/
theorem setDeepE_destroyE (e : Engine) (p : String) (v : JsValue) :
    setDeepE (destroyE e) p v
      = (destroyE (setDeepE e p v).1, [], (setDeepE e p v).2.2) := by
  unfold setDeepE
  dsimp only [destroyE]
  cases hg : getNestedValue e.state p with
  | error err => rfl
  | ok w =>
      dsimp only
      cases hs : setNestedValue (structClone e.state e.fresh).1 p v (structClone e.state e.fresh).2 with
      | error err => rfl
      | ok sf =>
          dsimp only
          exact congrArg (fun r => (r.1, r.2, none)) (setStateE_destroyE { e with fresh := sf.2 } sf.1 true)

/-- One store operation on a destroyed store: same state transition, no
events. -/
theorem applyOp_destroyE (e : Engine) (op : StoreOp) :
    applyOp (destroyE e) op = (destroyE (applyOp e op).1, []) := by
  cases op with
  | setDeepOp p v =>
      simp only [applyOp]
      rw [setDeepE_destroyE]
  | setStateOp upd repl =>
      simp only [applyOp]
      exact setStateE_destroyE e upd repl

/-- A sequence of operations on a destroyed store: same state transitions,
no events at all. -/
theorem runOps_destroyE (ops : List StoreOp) : ∀ e : Engine,
    runOps (destroyE e) ops = (destroyE (runOps e ops).1, []) := by
  induction ops with
  | nil => intro e; rfl
  | cons op rest ih =>
      intro e
      simp only [runOps]
      rw [applyOp_destroyE]
      dsimp only
      rw [ih ((applyOp e op).1)]
      rfl

/-- Flushing the batch queue of a destroyed store: same queue bookkeeping,
no events. -/
theorem flushBatchQueue_destroyE (e : Engine) :
    flushBatchQueue (destroyE e) = (destroyE (flushBatchQueue e).1, []) := by
  unfold flushBatchQueue destroyE
  dsimp only
  rw [show (fun pn : JsValue × JsValue =>
        notifyListeners { e with listeners := [], pathListeners := [],
                                 batchUpdates := [], batchPending := false } pn.1 pn.2)
      = (fun _ => ([] : List Event)) from rfl]
  rw [flatten_map_nil]

/-- A batch on a destroyed store: same state transitions, no events inside
the scope and none at the flush. -/
theorem batchRun_destroyE (e : Engine) (ops : List StoreOp) :
    batchRun (destroyE e) ops = (destroyE (batchRun e ops).1, [], []) := by
  unfold batchRun
  dsimp only [destroyE]
  rw [show ({ e with listeners := [], pathListeners := [], batchPending := true } : Engine)
      = destroyE { e with batchPending := true } from rfl]
  rw [runOps_destroyE]
  dsimp only
  split
  · rfl
  · rw [flushBatchQueue_destroyE]
    rfl

/-- Claim C10: after `destroy()` no listener registered before the destroy
is ever invoked again — a destroyed store emits no events for any later
operation sequence, batched or not — while `setState`/`setDeep` still apply
their mutations: the canonical state evolves exactly as it would on the
intact store. -/
theorem destroyed_store_never_notifies_but_still_mutates (e : Engine) (ops : List StoreOp) :
    (runOps (destroyE e) ops).2 = []
    ∧ (runOps (destroyE e) ops).1.state = (runOps e ops).1.state
    ∧ (batchRun (destroyE e) ops).2.1 = []
    ∧ (batchRun (destroyE e) ops).2.2 = []
    ∧ (batchRun (destroyE e) ops).1.state = (batchRun e ops).1.state := by
  refine ⟨?_, ?_, ?_, ?_, ?_⟩
  · rw [runOps_destroyE]
  · rw [runOps_destroyE]
    rfl
  · rw [batchRun_destroyE]
  · rw [batchRun_destroyE]
  · rw [batchRun_destroyE]
    rfl

/-- Iterating a step that preserves a property preserves it. -/
theorem foldl_const_preserves {α β : Type} (P : α → Prop) (f : α → α) (l : List β)
    (hf : ∀ a, P a → P (f a)) : ∀ a, P a → P (l.foldl (fun acc _ => f acc) a) := by
  induction l with
  | nil => intro a h; exact h
  | cons x xs ih => intro a h; exact ih (f a) (hf a h)

/-- `captureAt` preserves the configured bound and keeps
`past.length + future.length` within `maxSize`. -/
theorem captureAt_bound (h : HistModel) (fresh now : Nat) (st : JsValue) (M : Nat)
    (hm : h.maxSize = M) (hb : h.past.length + h.future.length ≤ M) :
    (captureAt h fresh now st).1.maxSize = M
    ∧ (captureAt h fresh now st).1.past.length
        + (captureAt h fresh now st).1.future.length ≤ M := by
  unfold captureAt
  split
  · exact ⟨hm, hb⟩
  · split
    · exact ⟨hm, hb⟩
    · unfold captureImmediate
      dsimp only
      refine ⟨hm, ?_⟩
      split
      · simp only [List.length_dropLast, List.length_cons, List.length_nil]
        omega
      · rename_i hc
        simp only [List.length_cons, List.length_nil] at hc ⊢
        omega

/-- `undo` preserves the bound (the sum of the stack lengths is conserved). -/
theorem undoH_bound (s : HStore) (now M : Nat)
    (hm : s.hist.maxSize = M)
    (hb : s.hist.past.length + s.hist.future.length ≤ M) :
    (undoH s now).hist.maxSize = M
    ∧ (undoH s now).hist.past.length + (undoH s now).hist.future.length ≤ M := by
  unfold undoH
  cases hp : s.hist.past with
  | nil => exact ⟨hm, hb⟩
  | cons a as =>
      dsimp only
      rw [hp] at hb
      simp only [List.length_cons] at hb ⊢
      exact ⟨hm, by omega⟩

/-- `redo` preserves the bound. -/
theorem redoH_bound (s : HStore) (now M : Nat)
    (hm : s.hist.maxSize = M)
    (hb : s.hist.past.length + s.hist.future.length ≤ M) :
    (redoH s now).hist.maxSize = M
    ∧ (redoH s now).hist.past.length + (redoH s now).hist.future.length ≤ M := by
  unfold redoH
  cases hp : s.hist.future with
  | nil => exact ⟨hm, hb⟩
  | cons a as =>
      dsimp only
      rw [hp] at hb
      simp only [List.length_cons] at hb ⊢
      exact ⟨hm, by omega⟩

/-- Every store operation preserves the bound. -/
theorem applyHistOp_bound (s : HStore) (op : HistOp) (M : Nat)
    (hm : s.hist.maxSize = M)
    (hb : s.hist.past.length + s.hist.future.length ≤ M) :
    (applyHistOp s op).hist.maxSize = M
    ∧ (applyHistOp s op).hist.past.length
        + (applyHistOp s op).hist.future.length ≤ M := by
  cases op with
  | clearOp => exact ⟨hm, by simp [applyHistOp, clearH]⟩
  | undoOp now => exact undoH_bound s now M hm hb
  | redoOp now => exact redoH_bound s now M hm hb
  | jumpOp now steps =>
      dsimp only [applyHistOp]
      split
      · unfold jumpBack
        exact foldl_const_preserves
          (fun a => a.hist.maxSize = M ∧ a.hist.past.length + a.hist.future.length ≤ M)
          (fun a => undoH a now) _
          (fun a ha => undoH_bound a now M ha.1 ha.2) s ⟨hm, hb⟩
      · unfold jumpFwd
        exact foldl_const_preserves
          (fun a => a.hist.maxSize = M ∧ a.hist.past.length + a.hist.future.length ≤ M)
          (fun a => redoH a now) _
          (fun a ha => redoH_bound a now M ha.1 ha.2) s ⟨hm, hb⟩
  | setDeepOp now p v =>
      dsimp only [applyHistOp]
      cases hr : setDeepH s now p v with
      | error err => exact ⟨hm, hb⟩
      | ok s1 =>
          unfold setDeepH at hr
          dsimp only at hr
          revert hr
          cases getNestedValue s.engine p with
          | error err => intro hr; cases hr
          | ok w =>
              dsimp only
              cases setNestedValue (structClone s.engine s.fresh).1 p v (structClone s.engine s.fresh).2 with
              | error err => intro hr; cases hr
              | ok sf =>
                  dsimp only
                  intro hr
                  injection hr with hr1
                  subst hr1
                  dsimp only
                  exact captureAt_bound s.hist sf.2 now sf.1 M hm hb

/-- Runs preserve the bound. -/
theorem runHistOps_bound (M : Nat) (ops : List HistOp) : ∀ s : HStore,
    s.hist.maxSize = M → s.hist.past.length + s.hist.future.length ≤ M →
    (runHistOps s ops).hist.maxSize = M
    ∧ (runHistOps s ops).hist.past.length
        + (runHistOps s ops).hist.future.length ≤ M := by
  induction ops with
  | nil => intro s hm hb; exact ⟨hm, hb⟩
  | cons op rest ih =>
      intro s hm hb
      have h1 := applyHistOp_bound s op M hm hb
      exact ih _ h1.1 h1.2

/-- Claim C8: on every store reachable by a sequence of operations from a
fresh history-enabled store, the `past` stack never exceeds `maxSize`; a
committed capture always leaves `future` empty (the redo branch is
discarded) and `past` within `maxSize`, and when the capture happens at
capacity the evicted entry is the oldest one — the new `past` is the pushed
pre-change snapshot followed by all but the oldest previous entry. -/
theorem history_capture_bounds_past_and_clears_future
    (initState st : JsValue) (M ci fresh fr now : Nat) (ops : List HistOp) :
    (c8Reach initState M ci fresh ops).hist.past.length ≤ M
    ∧ (captureImmediate (c8Reach initState M ci fresh ops).hist fr now st).1.future = []
    ∧ (captureImmediate (c8Reach initState M ci fresh ops).hist fr now st).1.past.length ≤ M
    ∧ ((c8Reach initState M ci fresh ops).hist.past.length = M → 0 < M →
        (captureImmediate (c8Reach initState M ci fresh ops).hist fr now st).1.past
          = { state := (c8Reach initState M ci fresh ops).hist.currentState,
              timestamp := (c8Reach initState M ci fresh ops).hist.lastCaptureTime }
              :: (c8Reach initState M ci fresh ops).hist.past.dropLast) := by
  have hrun := runHistOps_bound M ops
    { engine := initState, fresh := fresh, hist := initHist initState M ci }
    rfl (by simp [initHist])
  have hb : (c8Reach initState M ci fresh ops).hist.past.length
      + (c8Reach initState M ci fresh ops).hist.future.length ≤ M := hrun.2
  have hm : (c8Reach initState M ci fresh ops).hist.maxSize = M := hrun.1
  refine ⟨by omega, ?_, ?_, ?_⟩
  · unfold captureImmediate
    dsimp only
  · unfold captureImmediate
    dsimp only
    rw [hm]
    split
    · simp only [List.length_dropLast, List.length_cons]
      omega
    · rename_i hc
      simp only [List.length_cons] at hc ⊢
      omega
  · intro hfull hpos
    unfold captureImmediate
    dsimp only
    rw [hm, if_pos (by rw [List.length_cons]; omega)]
    cases hp : (c8Reach initState M ci fresh ops).hist.past with
    | nil => rw [hp] at hfull; simp at hfull; omega
    | cons a as => exact List.dropLast_cons₂

/-- Witness for C8: a store with `maxSize = 1` filled to capacity by one
committed capture; a further capture clears `future` and evicts the oldest
`past` entry. -/
theorem history_capture_bounds_past_and_clears_future_witness :
    (captureImmediate
        (c8Reach (.obj 0 [("x", .num 0)]) 1 0 1 [.setDeepOp 100 "x" (.num 1)]).hist
        50 200 (.obj 9 [("x", .num 2)])).1.future = []
    ∧ (captureImmediate
        (c8Reach (.obj 0 [("x", .num 0)]) 1 0 1 [.setDeepOp 100 "x" (.num 1)]).hist
        50 200 (.obj 9 [("x", .num 2)])).1.past
        = { state := (c8Reach (.obj 0 [("x", .num 0)]) 1 0 1
                        [.setDeepOp 100 "x" (.num 1)]).hist.currentState,
            timestamp := (c8Reach (.obj 0 [("x", .num 0)]) 1 0 1
                        [.setDeepOp 100 "x" (.num 1)]).hist.lastCaptureTime }
            :: (c8Reach (.obj 0 [("x", .num 0)]) 1 0 1
                  [.setDeepOp 100 "x" (.num 1)]).hist.past.dropLast :=
  ⟨(history_capture_bounds_past_and_clears_future (.obj 0 [("x", .num 0)])
      (.obj 9 [("x", .num 2)]) 1 0 1 50 200 [.setDeepOp 100 "x" (.num 1)]).2.1,
   (history_capture_bounds_past_and_clears_future (.obj 0 [("x", .num 0)])
      (.obj 9 [("x", .num 2)]) 1 0 1 50 200 [.setDeepOp 100 "x" (.num 1)]).2.2.2
      (by rfl) Nat.one_pos⟩

/-- `Object.is` is reflexive. -/
theorem objectIs_refl (v : JsValue) : objectIs v v = true := by
  cases v <;> simp [objectIs]

/-- The traversal of an exhausted path returns the current value. -/
theorem getNestedLoop_nil (v : JsValue) : getNestedLoop v [] = .ok v := by
  cases v <;> rfl

/-- Writing one key does not change the value read at another. -/
theorem lookupField_setField_ne (f : List (String × JsValue)) (k k2 : String)
    (v : JsValue) (h : (k2 == k) = false) :
    lookupField (setField f k2 v) k = lookupField f k := by
  induction f with
  | nil => simp [lookupField, setField, List.find?, h]
  | cons kv rest ih =>
      unfold setField
      by_cases hk : (kv.1 == k2) = true
      · rw [if_pos hk]
        have hne : (kv.1 == k) = false := by
          have := eq_of_beq hk
          subst this
          exact h
        simp [lookupField, List.find?_cons, h, hne]
      · rw [if_neg hk]
        by_cases hq : (kv.1 == k) = true
        · simp [lookupField, List.find?_cons, hq]
        · simp only [Bool.not_eq_true] at hq
          simp only [lookupField, List.find?_cons, hq] at ih ⊢
          exact ih

/-- A clone holds, at every key, a clone (started at some allocator value)
of the original's value at that key; absent keys stay absent. -/
theorem lookup_structCloneFields (fs : List (String × JsValue)) :
    ∀ (n : Nat) (k : String), ∃ m : Nat,
      lookupField (structCloneFields fs n).1 k = (structClone (lookupField fs k) m).1 := by
  induction fs with
  | nil =>
      intro n k
      exact ⟨0, rfl⟩
  | cons kv rest ih =>
      intro n k
      by_cases hk : (kv.1 == k) = true
      · refine ⟨n, ?_⟩
        cases kv with
        | mk k1 v1 =>
            simp only [structCloneFields, lookupField, List.find?_cons, hk]
      · obtain ⟨m, hm⟩ := ih (structClone kv.2 n).2 k
        refine ⟨m, ?_⟩
        cases kv with
        | mk k1 v1 =>
            simp only [structCloneFields, lookupField, List.find?_cons,
              hk] at hm ⊢
            exact hm

/-- Cloning a primitive value returns it unchanged. -/
theorem structClone_primitive (v : JsValue) (m : Nat) (h : isPrimitive v = true) :
    (structClone v m).1 = v := by
  cases v <;> simp_all [structClone, isPrimitive]

/-- Claim C4 (amended): (1) after a `setDeep` to the unrelated field `"c"`,
a cached computed value with `deps = ["a","b"]` whose cached value is
defined, whose dependency snapshot matches the store, and whose dependency
values are primitive (the deep clone preserves their identity) is served
from cache: the read returns the cached value and leaves the entry — in
particular its invocation counter — untouched; (2) whenever a dependency
value differs by `Object.is` from the snapshot, the read re-invokes
`compute` and bumps the counter.  (Without the provisos, part (1) fails:
see the counterexample, where a same-value `setDeep` to `"a"` invalidates
the entry.) -/
theorem computed_cached_iff_deps_unchanged_amended :
    (∀ (key : String) (e : CompEntry) (i fr : Nat)
        (fs : List (String × JsValue)) (va vb w : JsValue),
        e.deps = ["a", "b"] → e.cache = true →
        isUndefined e.cachedValue = false →
        e.lastDeps = some [va, vb] →
        lookupField fs "a" = va → isPrimitive va = true →
        lookupField fs "b" = vb → isPrimitive vb = true →
        ∃ s1 : CompStore,
          setDeepC { state := .obj i fs, fresh := fr, computed := [(key, e)] } "c" w
            = .ok s1
          ∧ storeGetComputed s1 key = (e.cachedValue, s1))
    ∧ (∀ (e : CompEntry) (st : JsValue) (la lb : JsValue),
        e.cache = true → e.deps = ["a", "b"] → e.lastDeps = some [la, lb] →
        objectIs (nestedOrUndef st "a") la = false →
        (computedGet e st).1 = e.compute st
        ∧ (computedGet e st).2.computeCount = e.computeCount + 1) := by
  constructor
  · intro key e i fr fs va vb w hdeps hcache hcv hld hva hpa hvb hpb
    have hpm : (["a", "b"].any (fun dep => pathMatches dep "c")) = false := by decide
    have hinv : shouldInvalidate [(key, e)] "c" = [] := by
      unfold shouldInvalidate
      simp [hdeps, hpm]
    have hca : lookupField (setField (structCloneFields fs (fr + 1)).1 "c" w) "a" = va := by
      rw [lookupField_setField_ne _ _ _ _ (by decide)]
      obtain ⟨m, hm⟩ := lookup_structCloneFields fs (fr + 1) "a"
      rw [hm, hva, structClone_primitive va m hpa]
    have hcb : lookupField (setField (structCloneFields fs (fr + 1)).1 "c" w) "b" = vb := by
      rw [lookupField_setField_ne _ _ _ _ (by decide)]
      obtain ⟨m, hm⟩ := lookup_structCloneFields fs (fr + 1) "b"
      rw [hm, hvb, structClone_primitive vb m hpb]
    have husc : shouldUseCache e
        (.obj fr (setField (structCloneFields fs (fr + 1)).1 "c" w)) = true := by
      have hga : getNestedValue
          (JsValue.obj fr (setField (structCloneFields fs (fr + 1)).1 "c" w)) "a"
          = .ok (lookupField (setField (structCloneFields fs (fr + 1)).1 "c" w) "a") := by
        show getNestedLoop (lookupField (setField (structCloneFields fs (fr + 1)).1 "c" w) "a") [] = _
        exact getNestedLoop_nil _
      have hgb : getNestedValue
          (JsValue.obj fr (setField (structCloneFields fs (fr + 1)).1 "c" w)) "b"
          = .ok (lookupField (setField (structCloneFields fs (fr + 1)).1 "c" w) "b") := by
        show getNestedLoop (lookupField (setField (structCloneFields fs (fr + 1)).1 "c" w) "b") [] = _
        exact getNestedLoop_nil _
      have ha : nestedOrUndef
          (JsValue.obj fr (setField (structCloneFields fs (fr + 1)).1 "c" w)) "a" = va := by
        unfold nestedOrUndef
        rw [hga, hca]
      have hb : nestedOrUndef
          (JsValue.obj fr (setField (structCloneFields fs (fr + 1)).1 "c" w)) "b" = vb := by
        unfold nestedOrUndef
        rw [hgb, hcb]
      unfold shouldUseCache
      rw [hld]
      simp only [hcv, hdeps, getDependencyValues, List.map, ha, hb]
      simp [List.zip, objectIs_refl]
    refine ⟨{ state := .obj fr (setField (structCloneFields fs (fr + 1)).1 "c" w),
              fresh := (structCloneFields fs (fr + 1)).2,
              computed := [(key, e)] }, ?_, ?_⟩
    · have hgc : getNestedValue (JsValue.obj i fs) "c" = .ok (lookupField fs "c") := by
        show getNestedLoop (lookupField fs "c") [] = _
        exact getNestedLoop_nil _
      unfold setDeepC
      rw [hgc]
      dsimp only
      rw [show setNestedValue (structClone (JsValue.obj i fs) fr).1 "c" w
            (structClone (JsValue.obj i fs) fr).2
          = .ok (.obj fr (setField (structCloneFields fs (fr + 1)).1 "c" w),
                 (structCloneFields fs (fr + 1)).2) from rfl]
      dsimp only
      rw [hinv]
      rfl
    · unfold storeGetComputed
      rw [show (([(key, e)] : List (String × CompEntry)).find? (fun ke => ke.1 == key))
          = some (key, e) from by simp]
      dsimp only
      unfold computedGet
      rw [hcache, husc]
      dsimp only
      simp
  · intro e st la lb hcache hdeps hld hdep
    have husc : shouldUseCache e st = false := by
      unfold shouldUseCache
      rw [hld]
      cases hcv : isUndefined e.cachedValue with
      | true => simp
      | false =>
          simp only [hdeps, getDependencyValues, List.map]
          simp [List.zip, hdep]
    unfold computedGet
    rw [hcache, husc]
    constructor
    · simp
    · simp

/-- Witness for C4 at a concrete store: cache hit and unchanged counter
after `setDeep("c", 9)`, and a recompute when the snapshot of `"a"` is
stale. -/
theorem computed_cached_iff_deps_unchanged_amended_witness :
    (∃ s1 : CompStore,
      setDeepC { state := .obj 0 c4Fields, fresh := 3,
                 computed := [("total", c4CacheEntry)] } "c" (.num 9) = .ok s1
      ∧ storeGetComputed s1 "total" = (c4CacheEntry.cachedValue, s1))
    ∧ ((computedGet c4StaleEntry (.obj 0 c4Fields)).1
          = c4StaleEntry.compute (.obj 0 c4Fields)
       ∧ (computedGet c4StaleEntry (.obj 0 c4Fields)).2.computeCount
          = c4StaleEntry.computeCount + 1) :=
  ⟨computed_cached_iff_deps_unchanged_amended.1 "total" c4CacheEntry 0 3 c4Fields
      (.num 1) (.num 2) (.num 9) rfl rfl rfl rfl rfl rfl rfl rfl,
   computed_cached_iff_deps_unchanged_amended.2 c4StaleEntry (.obj 0 c4Fields)
      (.num 5) (.num 2) rfl rfl rfl (by rfl)⟩

end Zust
